import Mathlib

/-!
Verification development for the core kernel of an xv6-style teaching OS
(spinlocks, sleep locks, frame allocator, buffer cache, write-ahead log,
pipes, ELF loader).  Each C function relevant to the properties below is
shallowly embedded as an executable Lean definition; panics and
non-returning paths are modelled with `Option` (with `none` standing for a
fatal `panic` or, where noted, a sleep that no modelled actor can end).
Machine integers are modelled as `Nat` with explicit `% 2^w` wherever the C
code can wrap.
-/

namespace XV6

/-- Page size, from `riscv.h` (`PGSIZE`): 4096 bytes. -/
def PGSIZE : Nat := 4096

/-- `PGROUNDUP(sz)` from `riscv.h`: round `sz` up to a page boundary. -/
def PGROUNDUP (sz : Nat) : Nat := ((sz + PGSIZE - 1) / PGSIZE) * PGSIZE

/-- 2^64, the modulus of `uint64` arithmetic. -/
def U64 : Nat := 2 ^ 64

/-- 2^32, the modulus of `uint` (32-bit) arithmetic. -/
def U32 : Nat := 2 ^ 32

/-- `uint64` subtraction `a - b` with wraparound, for `a < 2^64`. -/
def sub64 (a b : Nat) : Nat := (a + (U64 - b % U64)) % U64

/-! ## Spin primitive and per-CPU state (`spinlock.c`, `proc.h`)

The per-CPU fields `noff` (depth of `push_off` nesting) and `intena`
(whether interrupts were enabled before the outermost `push_off`) are the
fields of `struct cpu` that `push_off`/`pop_off` touch.  The machine state
carries the CPU's interrupt-enable flag (`intr_get`/`intr_on`/`intr_off`)
and, for each spinlock (indexed by `Nat`), who holds it.  We model one CPU
("me"); a lock held by another hart makes `acquire` spin with no modelled
actor to release it, so that case maps to `none` like a panic. -/

/-- Owner of a spinlock: free, held by this CPU, or held by another hart. -/
inductive LockOwner where
  | free : LockOwner
  | me : LockOwner
  | other : LockOwner
deriving DecidableEq

/-- The `noff`/`intena` fields of `struct cpu` (`proc.h`). -/
structure Cpu where
  noff : Nat
  intena : Bool
deriving DecidableEq

/-- Single-CPU machine state: the CPU record, the interrupt-enable flag,
and each spinlock's owner. -/
structure Mach where
  cpu : Cpu
  intr : Bool
  locks : Nat → LockOwner

/-- `push_off()` from `spinlock.c`: disable interrupts; at the outermost
nesting level remember the previous enable flag; bump `noff`. -/
def push_off (m : Mach) : Mach :=
  let old := m.intr
  let c := m.cpu
  let c := if c.noff = 0 then { c with intena := old } else c
  { m with intr := false, cpu := { c with noff := c.noff + 1 } }

/-- `pop_off()` from `spinlock.c`: panic if interrupts are on or `noff < 1`;
decrement `noff`; re-enable interrupts when the count reaches zero and
`intena` was saved as true. -/
def pop_off (m : Mach) : Option Mach :=
  if m.intr then none
  else if m.cpu.noff < 1 then none
  else
    let c := { m.cpu with noff := m.cpu.noff - 1 }
    some { m with cpu := c, intr := c.noff = 0 && c.intena }

/-- `holding(lk)` from `spinlock.c`: the lock is held and its `cpu` field is
this CPU. -/
def holding (m : Mach) (l : Nat) : Bool := m.locks l = LockOwner.me

/-- `acquire(lk)` from `spinlock.c`: `push_off`, panic on re-entrance, spin
on the test-and-set (a lock held by another hart never becomes free in the
one-CPU model, so that spin is `none`), record the owner. -/
def acquire (m : Mach) (l : Nat) : Option Mach :=
  let m1 := push_off m
  if holding m1 l then none
  else match m1.locks l with
    | LockOwner.other => none
    | _ => some { m1 with locks := fun x => if x = l then LockOwner.me else m1.locks x }

/-- `release(lk)` from `spinlock.c`: panic unless held by this CPU; clear
the owner; `pop_off`. -/
def release (m : Mach) (l : Nat) : Option Mach :=
  if !holding m l then none
  else pop_off { m with locks := fun x => if x = l then LockOwner.free else m.locks x }

/-- The spec's invariant 3: a positive `noff` means interrupts are off. -/
def NoffInv (m : Mach) : Prop := m.cpu.noff > 0 → m.intr = false

/-! ## Sleep locks (`sleeplock.c`)

`struct sleeplock`'s `locked` and `pid` fields; the inner spinlock and the
wait channel are serialised away in this sequential model (the operations
below are the bodies of the critical sections).  `releasesleep` also
reports that it issued a `wakeup` on the lock's channel. -/

/-- The `locked`/`pid` fields of `struct sleeplock` (`sleeplock.h`). -/
structure SleepLk where
  locked : Bool
  pid : Nat
deriving DecidableEq

/-- `holdingsleep(lk)` from `sleeplock.c`, for a caller with pid
`callerPid`: `lk->locked && lk->pid == myproc()->pid`. -/
def holdingsleep (lk : SleepLk) (callerPid : Nat) : Bool :=
  lk.locked && lk.pid == callerPid

/-- `releasesleep(lk)` from `sleeplock.c`: unconditionally clear `locked`
and `pid` and `wakeup(lk)`.  Note the function never consults the caller's
identity, so the embedding takes no caller pid.  The returned `Bool` is
true iff a wakeup was issued (it always is). -/
def releasesleep (_lk : SleepLk) : SleepLk × Bool :=
  ({ locked := false, pid := 0 }, true)

/-- The holder guard at the top of `bwrite` (`bio.c`):
`if (!holdingsleep(&b->lock)) panic("bwrite");`. -/
def bwriteGuard (lk : SleepLk) (callerPid : Nat) : Option Unit :=
  if !holdingsleep lk callerPid then none else some ()

/-- The holder guard at the top of `brelse` (`bio.c`):
`if (!holdingsleep(&b->lock)) panic("brelse");`. -/
def brelseGuard (lk : SleepLk) (callerPid : Nat) : Option Unit :=
  if !holdingsleep lk callerPid then none else some ()

/-! ## Frame allocator (`kalloc.c`)

`kmem.freelist` is the list of free frame addresses, front of the list =
head of the intrusive list.  The junk fills (`memset` with 1 or 5) touch
only frame contents, which no claim observes, so frame contents are not
modelled; `end` and `PHYSTOP` are the external bounds the code reads and
are passed as parameters. -/

/-- `kfree(pa)` from `kalloc.c`: panic unless `pa` is page-aligned and in
`[end, PHYSTOP)`; push the frame on the freelist. -/
def kfree (endA physTop : Nat) (pa : Nat) (freelist : List Nat) : Option (List Nat) :=
  if pa % PGSIZE ≠ 0 ∨ pa < endA ∨ physTop ≤ pa then none
  else some (pa :: freelist)

/-- `kalloc()` from `kalloc.c`: pop the freelist head, or return null
(`none` in the result position) if the list is empty.  The outer `Option`
is absent because `kalloc` never panics; the popped frame is `none` when
the freelist was empty. -/
def kalloc (freelist : List Nat) : Option Nat × List Nat :=
  match freelist with
  | [] => (none, [])
  | r :: rest => (some r, rest)

/-- The loop of `freerange(pa_start, pa_end)` from `kalloc.c`:
`for (p = PGROUNDUP(pa_start); p + PGSIZE <= pa_end; p += PGSIZE) kfree(p);`
expressed with an explicit iteration bound `fuel` (any `fuel` with
`pa_end ≤ p + fuel * PGSIZE` runs the loop to completion). -/
def freerangeGo (endA physTop pa_end : Nat) : Nat → Nat → List Nat → Option (List Nat)
  | 0, _, fl => some fl
  | fuel + 1, p, fl =>
    if p + PGSIZE ≤ pa_end then
      match kfree endA physTop p fl with
      | none => none
      | some fl' => freerangeGo endA physTop pa_end fuel (p + PGSIZE) fl'
    else some fl

/-- `freerange(pa_start, pa_end)` from `kalloc.c`, with the iteration bound
instantiated large enough to cover the whole range. -/
def freerange (endA physTop pa_start pa_end : Nat) (fl : List Nat) : Option (List Nat) :=
  freerangeGo endA physTop pa_end (pa_end / PGSIZE + 1) (PGROUNDUP pa_start) fl

/-- `kinit()` from `kalloc.c`: seed the freelist with `freerange(end, PHYSTOP)`. -/
def kinit (endA physTop : Nat) : Option (List Nat) :=
  freerange endA physTop endA physTop []

/-! ## Write-ahead log (`log.c`)

`MAXOPBLOCKS` and `LOGSIZE` come from `param.h`, which is not in the tree;
modelled from the spec with the standard xv6 values (the theorems below use
them only symbolically). -/

/-- Modelled from the spec: `MAXOPBLOCKS` of the missing `param.h`
(maximum blocks one FS operation may write); standard xv6 value. -/
def MAXOPBLOCKS : Nat := 10

/-- Modelled from the spec: `LOGSIZE` of the missing `param.h`
(maximum data blocks in the on-disk log); standard xv6 value. -/
def LOGSIZE : Nat := 30

/-- A disk block's contents: either raw data (identified abstractly by a
`Nat`) or an encoded log header.  `write_head` serialises `log.lh` into the
header block; `Blk.hdr bs` stands for a header block with `n = bs.length`
and `block[i] = bs[i]` (the authoritative fields; bytes past `n` entries
are dead). -/
inductive Blk where
  | raw : Nat → Blk
  | hdr : List Nat → Blk
deriving DecidableEq

/-- Storage state seen by the log code.  `mem b` is the current in-cache
contents of block `b` (what `bread` hands back: inside `commit` every block
touched is either already cached with its latest contents or read from
disk, and the two agree for blocks the transaction does not dirty);
`disk b` is the durable contents.  `bwrite` makes cache and disk agree. -/
structure Storage where
  mem : Nat → Blk
  disk : Nat → Blk

/-- One `bwrite` of contents `v` to block `bno`: the buffer (cache) holds
`v` and the block is written to disk.  Also returns the write event for the
disk-order trace. -/
def bwriteBlk (st : Storage) (bno : Nat) (v : Blk) : Storage × (Nat × Blk) :=
  ({ mem := fun x => if x = bno then v else st.mem x,
     disk := fun x => if x = bno then v else st.disk x }, (bno, v))

/-- In-memory log state (`struct log` of `log.c`).  `lh` is the in-memory
header: its length is `log.lh.n` and its entries are
`log.lh.block[0..n)`.  `pinned` records, in order, the blocknos passed to
`bpin` minus those passed to `bunpin` is not needed by any claim, so it is
the plain call trace of `bpin`. -/
structure LogSt where
  start : Nat
  size : Nat
  outstanding : Nat
  committing : Bool
  lh : List Nat
  pinned : List Nat
deriving DecidableEq

/-- The loop body of `write_log()` (`log.c`), from iteration `tail`
onward over the remaining logged blocknos `bs`: read the home buffer, copy
it into log block `start+tail+1`, `bwrite` the log block.  Returns the
final storage and the trace of disk writes in order. -/
def write_log_go (start : Nat) : List Nat → Nat → Storage → Storage × List (Nat × Blk)
  | [], _, st => (st, [])
  | b :: bs, tail, st =>
    let v := st.mem b
    let r := bwriteBlk st (start + tail + 1) v
    let w := write_log_go start bs (tail + 1) r.1
    (w.1, r.2 :: w.2)

/-- `write_log()` from `log.c`. -/
def write_log (lg : LogSt) (st : Storage) : Storage × List (Nat × Blk) :=
  write_log_go lg.start lg.lh 0 st

/-- `write_head()` from `log.c`: write the in-memory header to the
log-header block (`bread(log.start)`, fill in `n` and `block[]`,
`bwrite`).  The commit point. -/
def write_head (lg : LogSt) (st : Storage) : Storage × List (Nat × Blk) :=
  let r := bwriteBlk st lg.start (Blk.hdr lg.lh)
  (r.1, [r.2])

/-- The loop body of `install_trans(recovering)` (`log.c`), from iteration
`tail` onward: read the log block `start+tail+1`, copy it into the home
buffer, `bwrite` the home block, and (when not recovering) `bunpin` it.
`bunpin` only touches `refcnt`, which this storage view does not carry, so
it leaves no trace here; the recovering flag therefore does not appear. -/
def install_trans_go (start : Nat) : List Nat → Nat → Storage → Storage × List (Nat × Blk)
  | [], _, st => (st, [])
  | b :: bs, tail, st =>
    let v := st.mem (start + tail + 1)
    let r := bwriteBlk st b v
    let w := install_trans_go start bs (tail + 1) r.1
    (w.1, r.2 :: w.2)

/-- `install_trans(recovering)` from `log.c`. -/
def install_trans (lg : LogSt) (st : Storage) : Storage × List (Nat × Blk) :=
  install_trans_go lg.start lg.lh 0 st

/-- `commit()` from `log.c`: if any blocks are logged, `write_log`,
`write_head` (the real commit), `install_trans(0)`, clear `n`, and
`write_head` again to erase the transaction.  Returns the final storage,
the final log state, and the ordered trace of disk writes. -/
def commit (lg : LogSt) (st : Storage) : Storage × LogSt × List (Nat × Blk) :=
  if lg.lh.length > 0 then
    let r1 := write_log lg st
    let r2 := write_head lg r1.1
    let r3 := install_trans lg r2.1
    let lg' := { lg with lh := [] }
    let r4 := write_head lg' r3.1
    (r4.1, lg', r1.2 ++ r2.2 ++ r3.2 ++ r4.2)
  else (st, lg, [])

/-- One iteration of the `begin_op()` loop (`log.c`): sleep while
`log.committing` or while `log.lh.n + (log.outstanding+1)*MAXOPBLOCKS >
LOGSIZE`; otherwise increment `outstanding` and return. -/
inductive BeginOp where
  | sleepOn : LogSt → BeginOp
  | done : LogSt → BeginOp
deriving DecidableEq

/-- The body of `begin_op()`'s `while(1)` loop, run under `log.lock`. -/
def begin_op_iter (lg : LogSt) : BeginOp :=
  if lg.committing then BeginOp.sleepOn lg
  else if lg.lh.length + (lg.outstanding + 1) * MAXOPBLOCKS > LOGSIZE then BeginOp.sleepOn lg
  else BeginOp.done { lg with outstanding := lg.outstanding + 1 }

/-- `begin_op()` from `log.c`: iterate `begin_op_iter`; while it sleeps,
the environment `env` may change the log state (another hart finishing a
commit).  `fuel` bounds the modelled iterations; `none` means the call was
still asleep when the bound ran out. -/
def begin_op (env : Nat → LogSt → LogSt) : Nat → Nat → LogSt → Option LogSt
  | 0, _, _ => none
  | fuel + 1, t, lg =>
    match begin_op_iter lg with
    | BeginOp.done lg' => some lg'
    | BeginOp.sleepOn lg' => begin_op env fuel (t + 1) (env t lg')

/-- `log_write(b)` from `log.c` for a buffer with block number `bno`:
panic if the transaction is too big or no op is open; otherwise scan
`block[0..n)` for `bno` (log absorption); on a miss append it, `bpin` the
buffer, and increment `n`.  (The store `log.lh.block[i] = b->blockno` on a
hit rewrites the slot with the value it already holds.) -/
def log_write (lg : LogSt) (bno : Nat) : Option LogSt :=
  if lg.lh.length ≥ LOGSIZE ∨ lg.lh.length ≥ lg.size - 1 then none
  else if lg.outstanding < 1 then none
  else if bno ∈ lg.lh then some lg
  else some { lg with lh := lg.lh ++ [bno], pinned := lg.pinned ++ [bno] }

/-! ## Buffer cache (`bio.c`, `buf.h`)

The LRU list is modelled as a `List Buf` in `head.next`-to-`head.prev`
order: the front of the list is the MRU end, the back the LRU end.
`bget`'s first scan walks the list from the front; its recycling scan walks
from the back (`head.prev` upward), exactly as the `b->prev` loop does.
Buffers are addressed by position in the list; positions are stable across
`bget`/`bread` (which never reorder) and change only in `brelse`.  The
`data`, `disk`, and sleep-lock fields of `struct buf` are not observed by
the LRU claim and are omitted from this view. -/

/-- The identity/state fields of `struct buf` (`buf.h`) that `bget`,
`bread`, and `brelse` manipulate. -/
structure Buf where
  valid : Bool
  dev : Nat
  blockno : Nat
  refcnt : Nat
deriving DecidableEq

/-- `binit()` from `bio.c`: `NBUF` buffers, all zero-initialised (C global
data), pushed one by one at `head.next`; the resulting list is `nbuf`
copies of the zero buffer. -/
def binit : Nat → List Buf
  | 0 => []
  | k + 1 => { valid := false, dev := 0, blockno := 0, refcnt := 0 } :: binit k

/-- The first scan of `bget` (`bio.c`): walk from `head.next` (front)
looking for a buffer already holding `(dev, blockno)`; on a hit bump its
`refcnt` in place and return its position. -/
def bgetCached (dev bno : Nat) : List Buf → Option (Nat × List Buf)
  | [] => none
  | b :: rest =>
    if b.dev = dev ∧ b.blockno = bno then
      some (0, { b with refcnt := b.refcnt + 1 } :: rest)
    else
      match bgetCached dev bno rest with
      | none => none
      | some (i, rest') => some (i + 1, b :: rest')

/-- The recycling scan of `bget` (`bio.c`): walk from `head.prev` (the
back of the list) looking for the first buffer with `refcnt == 0`;
repurpose it in place (`dev`/`blockno` set, `valid = 0`, `refcnt = 1`).
`none` means no buffer is reclaimable (`panic("bget: no buffers")`). -/
def bgetRecycle (dev bno : Nat) : List Buf → Option (Nat × List Buf)
  | [] => none
  | b :: rest =>
    match bgetRecycle dev bno rest with
    | some (i, rest') => some (i + 1, b :: rest')
    | none =>
      if b.refcnt = 0 then
        some (0, { valid := false, dev := dev, blockno := bno, refcnt := 1 } :: rest)
      else none

/-- `bget(dev, blockno)` from `bio.c`: the cached scan, then the recycling
scan; `none` is the fatal "no buffers" case.  Returns the position of the
returned buffer and the updated list. -/
def bget (dev bno : Nat) (cache : List Buf) : Option (Nat × List Buf) :=
  match bgetCached dev bno cache with
  | some r => some r
  | none => bgetRecycle dev bno cache

/-- `bread(dev, blockno)` from `bio.c`: `bget`, then if the buffer is not
valid read it from disk (not modelled here) and mark it valid. -/
def bread (dev bno : Nat) (cache : List Buf) : Option (Nat × List Buf) :=
  match bget dev bno cache with
  | none => none
  | some (i, c) =>
    match c.get? i with
    | none => none
    | some b => some (i, c.set i { b with valid := true })

/-- `brelse(b)` from `bio.c` for the buffer at position `i` (the sleep-lock
release is not part of this view; the `holdingsleep` guard is modelled
separately as `brelseGuard`): decrement `refcnt`; if it reaches zero,
unlink the buffer and reinsert it at `head.next`, the MRU end (the front
of the list). -/
def brelse (i : Nat) (cache : List Buf) : Option (List Buf) :=
  match cache.get? i with
  | none => none
  | some b =>
    let b' := { b with refcnt := b.refcnt - 1 }
    if b'.refcnt = 0 then some (b' :: (cache.take i ++ cache.drop (i + 1)))
    else some (cache.set i b')

/-! ## Pipe (`pipe.c`)

`struct pipe` with its 512-byte ring; `nread`/`nwrite` are C `uint`s, so
their increments wrap at `2^32`.  `pipewrite` and `piperead` run under
`pi->lock` except while sleeping; an environment supplies, per loop
iteration, the result of `killed(pr)` (the killed flag is written by
`kill` without the pipe lock), the outcome of `copyin`/`copyout`, the user
bytes, and the state transformation other processes apply to the pipe
during each sleep (while the lock is released).  Loops carry an explicit
`fuel`; `none` means the call was still blocked when the bound ran out.
Besides the C return value, each embedding returns the number of bytes the
call actually moved through the ring, so that the relation between the
return value and the bytes transferred is observable. -/

/-- `PIPESIZE` from `pipe.c`. -/
def PIPESIZE : Nat := 512

/-- `struct pipe` from `pipe.c` (minus the spinlock, which serialises the
loop bodies in this model). -/
structure Pipe where
  data : Nat → Nat
  nread : Nat
  nwrite : Nat
  readopen : Bool
  writeopen : Bool

/-- The environment of one `pipewrite` call. -/
structure WriterEnv where
  killed : Nat → Bool
  copyinOk : Nat → Bool
  byte : Nat → Nat
  onSleep : Nat → Pipe → Pipe

/-- The `while (i < n)` loop of `pipewrite` (`pipe.c`), at iteration
counter `t` with `i` bytes already copied: stop with `-1` if the read end
is closed or the caller is killed; if the ring is full, wake readers and
sleep (the environment mutates the pipe while the lock is down); otherwise
`copyin` one byte (a `copyin` failure breaks out of the loop and the call
returns `i`), store it at `nwrite % PIPESIZE`, and advance.  Returns
(return value, bytes transferred by this call, final pipe). -/
def pipewriteLoop (env : WriterEnv) : Nat → Nat → Nat → Nat → Pipe → Option (Int × Nat × Pipe)
  | 0, _, _, _, _ => none
  | fuel + 1, t, i, n, pi =>
    if i < n then
      if pi.readopen = false ∨ env.killed t then some (-1, i, pi)
      else if pi.nwrite = (pi.nread + PIPESIZE) % U32 then
        pipewriteLoop env fuel (t + 1) i n (env.onSleep t pi)
      else if env.copyinOk t = false then some ((i : Int), i, pi)
      else
        pipewriteLoop env fuel (t + 1) (i + 1) n
          { pi with
            data := fun x => if x = pi.nwrite % PIPESIZE then env.byte i else pi.data x,
            nwrite := (pi.nwrite + 1) % U32 }
    else some ((i : Int), i, pi)

/-- `pipewrite(pi, addr, n)` from `pipe.c`. -/
def pipewrite (env : WriterEnv) (fuel n : Nat) (pi : Pipe) : Option (Int × Nat × Pipe) :=
  pipewriteLoop env fuel 0 0 n pi

/-- The environment of one `piperead` call. -/
structure ReaderEnv where
  killed : Nat → Bool
  copyoutOk : Nat → Bool
  onSleep : Nat → Pipe → Pipe

/-- The `while (empty && writeopen)` wait loop of `piperead` (`pipe.c`):
return `true` (the call returns `-1`) if killed, else sleep and re-check.
`none` when the fuel runs out while still waiting. -/
def pipereadWait (env : ReaderEnv) : Nat → Nat → Pipe → Option (Bool × Pipe)
  | 0, _, _ => none
  | fuel + 1, t, pi =>
    if pi.nread = pi.nwrite ∧ pi.writeopen then
      if env.killed t then some (true, pi)
      else pipereadWait env fuel (t + 1) (env.onSleep t pi)
    else some (false, pi)

/-- The `for (i = 0; i < n; i++)` copy loop of `piperead` (`pipe.c`):
stop when the ring is empty; otherwise consume the byte at
`nread % PIPESIZE` (the `nread++` happens before `copyout`), and break if
`copyout` fails.  Returns (i, final pipe). -/
def pipereadCopy (env : ReaderEnv) : Nat → Nat → Pipe → Nat × Pipe
  | 0, _, pi => (0, pi)
  | k + 1, i, pi =>
    if pi.nread = pi.nwrite then (0, pi)
    else
      let pi' := { pi with nread := (pi.nread + 1) % U32 }
      if env.copyoutOk i = false then (0, pi')
      else
        let (j, pi'') := pipereadCopy env k (i + 1) pi'
        (j + 1, pi'')

/-- `piperead(pi, addr, n)` from `pipe.c`: wait while the pipe is empty
and the write end is open (returning `-1` if killed while waiting), then
copy up to `n` bytes out.  Returns (return value, bytes transferred by
this call, final pipe). -/
def piperead (env : ReaderEnv) (fuel n : Nat) (pi : Pipe) : Option (Int × Nat × Pipe) :=
  match pipereadWait env fuel 0 pi with
  | none => none
  | some (true, pi') => some (-1, 0, pi')
  | some (false, pi') =>
    let (i, pi'') := pipereadCopy env n 0 pi'
    some ((i : Int), i, pi'')

/-! ## ELF loader (`exec.c`, `elf.h`)

`exec` is embedded over an environment of oracles for its external
collaborators (`namei`/`readi` on the inode, `proc_pagetable`, `uvmalloc`,
`loadseg`'s inner `readi`, `copyout`), each keyed by call site or call
index.  The process fields `exec` reads or writes are `pagetable` (an
opaque identifier), `sz`, the trap frame's `epc`, `sp`, `a1`, and `name`.
The order of the page-table swap and the frees is captured in an event
trace.  `PTE_*` values come from the missing `riscv.h`; modelled from the
spec's RISC-V target with the standard sv39 PTE bit values. -/

/-- Modelled from the spec: `PTE_R` of the missing `riscv.h` (RISC-V PTE
read bit, 1 << 1). -/
def PTE_R : Nat := 2

/-- Modelled from the spec: `PTE_W` of the missing `riscv.h` (RISC-V PTE
write bit, 1 << 2). -/
def PTE_W : Nat := 4

/-- Modelled from the spec: `PTE_X` of the missing `riscv.h` (RISC-V PTE
execute bit, 1 << 3). -/
def PTE_X : Nat := 8

/-- `ELF_MAGIC` from `elf.h`. -/
def ELF_MAGIC : Nat := 0x464C457F

/-- `ELF_PROG_LOAD` from `elf.h`. -/
def ELF_PROG_LOAD : Nat := 1

/-- Modelled from the spec: `MAXARG` of the missing `param.h` (maximum
exec arguments); standard xv6 value. -/
def MAXARG : Nat := 32

/-- `flags2perm(flags)` from `exec.c`: translate ELF segment flags into
page-table permission bits. -/
def flags2perm (flags : Nat) : Nat :=
  let perm := if flags &&& 0x1 ≠ 0 then PTE_X else 0
  if flags &&& 0x2 ≠ 0 then perm ||| PTE_W else perm

/-- The fields of `struct elfhdr` (`elf.h`) that `exec` reads. -/
structure ElfHdr where
  magic : Nat
  entry : Nat
  phnum : Nat
deriving DecidableEq

/-- The fields of `struct proghdr` (`elf.h`) that `exec` reads; all are
`uint64`/`uint32` values. -/
structure ProgHdr where
  ptype : Nat
  flags : Nat
  vaddr : Nat
  filesz : Nat
  memsz : Nat
deriving DecidableEq

/-- The fields of the process (`struct proc`, `struct trapframe`) that
`exec` reads or writes.  `pagetable` is an opaque identifier. -/
structure TrapFrame where
  epc : Nat
  sp : Nat
  a1 : Nat
deriving DecidableEq

/-- Process view for `exec`. -/
structure Proc where
  pagetable : Nat
  sz : Nat
  trapframe : TrapFrame
  name : Nat
deriving DecidableEq

/-- Page-table lifecycle events emitted by `exec`: installing a page table
into the process and freeing one (`proc_freepagetable`). -/
inductive PtEvent where
  | install : Nat → PtEvent
  | freePT : Nat → PtEvent
deriving DecidableEq

/-- Environment of one `exec` call: outcomes of the external calls. -/
structure ExecEnv where
  inodeFound : Bool
  elfhdrRead : Option ElfHdr
  ph : Nat → Option ProgHdr
  newPT : Option Nat
  uvmallocOk : Nat → Nat → Bool
  loadsegOk : Nat → Bool
  copyoutOk : Nat → Bool
  argvLen : List Nat
  baseName : Nat

/-- Modelled from the spec: `uvmalloc(pt, oldsz, newsz, perm)` of the
MMU helpers (external interface): grow the address space to `newsz` and
return the new size (a `newsz` at or below `oldsz` leaves the size
unchanged); `0` on allocation failure is modelled by the `uvmallocOk`
oracle at the call site. -/
def uvmallocRes (oldsz newsz : Nat) : Nat := max oldsz newsz

/-- The program-header loop of `exec` (`exec.c`), over header indices
`i, i+1, ...` with `k` iterations left (started with `k = elf.phnum`):
read the header (`readi` failure is fatal to the call), skip non-LOAD
segments, validate `memsz ≥ filesz`, no `uint64` overflow of
`vaddr + memsz`, page-aligned `vaddr`; then `uvmalloc` to
`vaddr + memsz` with `flags2perm(flags)` and `loadseg` the file bytes.
Returns the final `sz`, or `none` for `goto bad`. -/
def execSegLoop (env : ExecEnv) : Nat → Nat → Nat → Option Nat
  | 0, _, sz => some sz
  | k + 1, i, sz =>
    match env.ph i with
    | none => none
    | some ph =>
      if ph.ptype ≠ ELF_PROG_LOAD then execSegLoop env k (i + 1) sz
      else if ph.memsz < ph.filesz then none
      else if (ph.vaddr + ph.memsz) % U64 < ph.vaddr then none
      else if ph.vaddr % PGSIZE ≠ 0 then none
      else if env.uvmallocOk sz ((ph.vaddr + ph.memsz) % U64) = false then none
      else if env.loadsegOk i = false then none
      else execSegLoop env k (i + 1) (uvmallocRes sz ((ph.vaddr + ph.memsz) % U64))

/-- The argv-push loop of `exec` (`exec.c`): for each argument string
(represented by its `strlen`), fail once `argc` reaches `MAXARG`; drop
`sp` by the string length plus NUL, 16-byte align it, fail if it crosses
below `stackbase`, `copyout` the string (the `c`-th `copyout` of the
call).  Returns `(argc, sp, c)` after the loop. -/
def execArgvLoop (env : ExecEnv) : List Nat → Nat → Nat → Nat → Nat → Option (Nat × Nat × Nat)
  | [], argc, sp, _, c => some (argc, sp, c)
  | len :: rest, argc, sp, stackbase, c =>
    if MAXARG ≤ argc then none
    else
      let sp1 := sub64 sp (len + 1)
      let sp2 := sp1 - sp1 % 16
      if sp2 < stackbase then none
      else if env.copyoutOk c = false then none
      else execArgvLoop env rest (argc + 1) sp2 stackbase (c + 1)

/-- `exec(path, argv)` from `exec.c`.  Returns the C return value, the
process state after the call, and the trace of page-table install/free
events.  Failure paths (`goto bad` and the two early returns) free the
partially built page table when one was allocated and leave the process
untouched; the success path stamps `a1` (argv array pointer), `name`,
installs the new page table and `sz`, sets the trap frame's `epc` and
`sp`, frees the old page table, and returns `argc`. -/
def exec (env : ExecEnv) (p : Proc) : Int × Proc × List PtEvent :=
  if env.inodeFound = false then (-1, p, [])
  else
    match env.elfhdrRead with
    | none => (-1, p, [])
    | some e =>
      if e.magic ≠ ELF_MAGIC then (-1, p, [])
      else
        match env.newPT with
        | none => (-1, p, [])
        | some pt =>
          match execSegLoop env e.phnum 0 0 with
          | none => (-1, p, [PtEvent.freePT pt])
          | some szL =>
            let sz0 := PGROUNDUP szL
            if env.uvmallocOk sz0 (sz0 + 2 * PGSIZE) = false then (-1, p, [PtEvent.freePT pt])
            else
              let sz := uvmallocRes sz0 (sz0 + 2 * PGSIZE)
              let sp := sz
              let stackbase := sp - PGSIZE
              match execArgvLoop env env.argvLen 0 sp stackbase 0 with
              | none => (-1, p, [PtEvent.freePT pt])
              | some (argc, sp2, c) =>
                let sp3 := sub64 sp2 ((argc + 1) * 8)
                let sp4 := sp3 - sp3 % 16
                if sp4 < stackbase then (-1, p, [PtEvent.freePT pt])
                else if env.copyoutOk c = false then (-1, p, [PtEvent.freePT pt])
                else
                  ((argc : Int),
                   { pagetable := pt, sz := sz, name := env.baseName,
                     trapframe := { epc := e.entry, sp := sp4, a1 := sp4 } },
                   [PtEvent.install pt, PtEvent.freePT p.pagetable])

/-! ## Spec-side descriptions and concrete scenarios

The two `spec…` functions below transcribe the claimed commit order
(bodies first, then header, then home installs); the theorems compare the
traces the embedded `commit` emits against them.  The remaining
definitions are the concrete inputs of the end-to-end scenarios and
counterexamples. -/

/-- Claimed order of the log-body writes of a commit: block
`start+tail+1` receives the in-cache body `m b` of the `tail`-th logged
block. -/
def specBodyWrites (start : Nat) (m : Nat → Blk) : List Nat → Nat → List (Nat × Blk)
  | [], _ => []
  | b :: bs, tail => (start + tail + 1, m b) :: specBodyWrites start m bs (tail + 1)

/-- Claimed order of the home-block installs of a commit: each logged
block `b` receives the body `m b` it had in the cache at commit time. -/
def specHomeWrites (m : Nat → Blk) : List Nat → List (Nat × Blk)
  | [] => []
  | b :: bs => (b, m b) :: specHomeWrites m bs

/-- Concrete log state for the commit-order scenario: a transaction over
home blocks 100 and 200, log region starting at block 3. -/
def lgC1 : LogSt :=
  { start := 3, size := 31, outstanding := 0, committing := true,
    lh := [100, 200], pinned := [100, 200] }

/-- Concrete storage for the commit-order scenario: every block `b`
holds recognisable contents `Blk.raw b`. -/
def stC1 : Storage :=
  { mem := fun b => Blk.raw b, disk := fun b => Blk.raw (b + 1000) }

/-- Environment of the `pipewrite` counterexample: the caller is killed
after the first loop iteration, `copyin` always succeeds, no concurrent
activity during sleeps. -/
def envC2 : WriterEnv :=
  { killed := fun t => decide (1 ≤ t), copyinOk := fun _ => true,
    byte := fun i => 65 + i, onSleep := fun _ pi => pi }

/-- An empty pipe with both ends open. -/
def piC2 : Pipe :=
  { data := fun _ => 0, nread := 0, nwrite := 0, readopen := true, writeopen := true }

/-- The `pipewrite` counterexample run, projected to (return value, bytes
transferred by the call): write 2 bytes; the kill lands after byte 1. -/
def runC2 : Option (Int × Nat) :=
  (pipewrite envC2 5 2 piC2).map fun r => (r.1, r.2.1)

/-- A fully successful `exec` environment: one LOAD segment of one page at
vaddr 0, two argv strings of lengths 4 and 2, every external call
succeeding. -/
def envC3 : ExecEnv :=
  { inodeFound := true,
    elfhdrRead := some { magic := ELF_MAGIC, entry := 0x100, phnum := 1 },
    ph := fun _ => some { ptype := ELF_PROG_LOAD, flags := 5, vaddr := 0,
                          filesz := 512, memsz := 4096 },
    newPT := some 7,
    uvmallocOk := fun _ _ => true,
    loadsegOk := fun _ => true,
    copyoutOk := fun _ => true,
    argvLen := [4, 2],
    baseName := 42 }

/-- A failing `exec` environment: same image, but the final `copyout` of
the argv pointer array fails. -/
def envC3bad : ExecEnv :=
  { envC3 with copyoutOk := fun c => decide (c < 2) }

/-- The calling process for the `exec` scenarios. -/
def procC3 : Proc :=
  { pagetable := 3, sz := 8192, trapframe := { epc := 11, sp := 12, a1 := 13 }, name := 9 }

/-- Concrete log state for the `begin_op` scenario: idle log, no
transaction open. -/
def lgC5 : LogSt :=
  { start := 3, size := 31, outstanding := 0, committing := false, lh := [], pinned := [] }

/-- Concrete log state for the log-absorption scenario: one op open,
nothing logged yet. -/
def lgC6 : LogSt :=
  { start := 3, size := 31, outstanding := 1, committing := false, lh := [], pinned := [] }

/-- The buffer-LRU scenario E3 with `NBUF = 3`:
`bread(1,10); brelse; bread(1,11); brelse; bread(1,12); brelse; bread(1,13)`. -/
def runC7 : Option (List Buf) :=
  (bread 1 10 (binit 3)).bind fun r1 =>
  (brelse r1.1 r1.2).bind fun c1 =>
  (bread 1 11 c1).bind fun r2 =>
  (brelse r2.1 r2.2).bind fun c2 =>
  (bread 1 12 c2).bind fun r3 =>
  (brelse r3.1 r3.2).bind fun c3 =>
  (bread 1 13 c3).map fun r4 => r4.2

/-- The machine of spin-nesting scenario E2: interrupts enabled, no
nesting, all locks free. -/
def machE2 : Mach :=
  { cpu := { noff := 0, intena := false }, intr := true, locks := fun _ => LockOwner.free }

/-- Scenario E2 prefix `acquire(A); acquire(B); release(B)` on `machE2`,
with `A = 0`, `B = 1`. -/
def runC8a : Option Mach :=
  (acquire machE2 0).bind fun m1 => (acquire m1 1).bind fun m2 => release m2 1

/-- Scenario E2 continued with the final `release(A)`. -/
def runC8b : Option Mach :=
  runC8a.bind fun m => release m 0

/-! ## Theorems -/

/-- Any address an executed `freerangeGo` pushed onto the freelist passed
`kfree`'s guard: page-aligned and inside `[endA, physTop)`. -/
theorem freerangeGo_mem (endA physTop pa_end : Nat) :
    ∀ fuel p fl res, freerangeGo endA physTop pa_end fuel p fl = some res →
      ∀ x ∈ res, x ∈ fl ∨ (x % PGSIZE = 0 ∧ endA ≤ x ∧ x < physTop) := by
  intro fuel
  induction fuel with
  | zero =>
    intro p fl res h x hx
    simp only [freerangeGo, Option.some.injEq] at h
    exact Or.inl (h ▸ hx)
  | succ k ih =>
    intro p fl res h x hx
    rw [freerangeGo] at h
    by_cases hle : p + PGSIZE ≤ pa_end
    · rw [if_pos hle, kfree] at h
      by_cases hg : p % PGSIZE ≠ 0 ∨ p < endA ∨ physTop ≤ p
      · rw [if_pos hg] at h
        exact absurd h (by simp)
      · rw [if_neg hg] at h
        push_neg at hg
        rcases ih (p + PGSIZE) (p :: fl) res h x hx with hin | hgood
        · rw [List.mem_cons] at hin
          rcases hin with rfl | hin
          · exact Or.inr ⟨hg.1, hg.2.1, hg.2.2⟩
          · exact Or.inl hin
        · exact Or.inr hgood
    · rw [if_neg hle] at h
      injection h with h'
      exact Or.inl (h' ▸ hx)

/-- An executed `freerangeGo` keeps the freelist duplicate-free: it pushes
strictly increasing addresses onto a list whose members are all below the
cursor. -/
theorem freerangeGo_nodup (endA physTop pa_end : Nat) :
    ∀ fuel p fl res, (∀ x ∈ fl, x < p) → fl.Nodup →
      freerangeGo endA physTop pa_end fuel p fl = some res → res.Nodup := by
  intro fuel
  induction fuel with
  | zero =>
    intro p fl res _ hnd h
    simp only [freerangeGo, Option.some.injEq] at h
    exact h ▸ hnd
  | succ k ih =>
    intro p fl res hlt hnd h
    rw [freerangeGo] at h
    by_cases hle : p + PGSIZE ≤ pa_end
    · rw [if_pos hle, kfree] at h
      by_cases hg : p % PGSIZE ≠ 0 ∨ p < endA ∨ physTop ≤ p
      · rw [if_pos hg] at h
        exact absurd h (by simp)
      · rw [if_neg hg] at h
        refine ih (p + PGSIZE) (p :: fl) res ?_ ?_ h
        · intro x hx
          rw [List.mem_cons] at hx
          rcases hx with rfl | hx
          · have hp : 0 < PGSIZE := by decide
            omega
          · have := hlt x hx
            have hp : 0 < PGSIZE := by decide
            omega
        · exact List.nodup_cons.mpr ⟨fun hc => absurd (hlt p hc) (lt_irrefl p), hnd⟩
    · rw [if_neg hle] at h
      injection h with h'
      exact h' ▸ hnd

/-- C9: the frame freelist is LIFO and `kalloc`/`kfree` round-trip.  After
`kinit` over a region, every frame on the freelist is 4 KiB-aligned and
inside `[end, PHYSTOP)` and the freelist has no duplicates, so two
successive `kalloc`s return distinct aligned in-range frames; `kalloc` on
an empty freelist returns null; and a `kalloc` immediately after a
successful `kfree p` returns exactly `p`. -/
theorem C9_kalloc_lifo :
    ∀ endA physTop fl, kinit endA physTop = some fl →
      (∀ x ∈ fl, x % PGSIZE = 0 ∧ endA ≤ x ∧ x < physTop)
      ∧ fl.Nodup
      ∧ (∀ a rest b rest', kalloc fl = (some a, rest) → kalloc rest = (some b, rest') →
          a ≠ b ∧ a % PGSIZE = 0 ∧ endA ≤ a ∧ a < physTop
          ∧ b % PGSIZE = 0 ∧ endA ≤ b ∧ b < physTop)
      ∧ kalloc ([] : List Nat) = (none, [])
      ∧ (∀ q fl0 fl', kfree endA physTop q fl0 = some fl' → kalloc fl' = (some q, fl0)) := by
  intro endA physTop fl hinit
  have hmem : ∀ x ∈ fl, x % PGSIZE = 0 ∧ endA ≤ x ∧ x < physTop := by
    intro x hx
    rcases freerangeGo_mem endA physTop physTop _ _ _ _ hinit x hx with hin | hgood
    · exact absurd hin (List.not_mem_nil x)
    · exact hgood
  have hnd : fl.Nodup :=
    freerangeGo_nodup endA physTop physTop _ _ _ _ (by intro x hx; cases hx) List.nodup_nil hinit
  refine ⟨hmem, hnd, ?_, rfl, ?_⟩
  · intro a rest b rest' ha hb
    have hrest : rest = b :: rest' := by
      cases rest with
      | nil => simp [kalloc] at hb
      | cons r rest0 =>
        simp only [kalloc, Prod.mk.injEq, Option.some.injEq] at hb
        rw [hb.1, hb.2]
    have hfl : fl = a :: rest := by
      cases fl with
      | nil => simp [kalloc] at ha
      | cons r rest0 =>
        simp only [kalloc, Prod.mk.injEq, Option.some.injEq] at ha
        rw [ha.1, ha.2]
    rw [hrest] at hfl
    rw [hfl] at hnd hmem
    have hane : a ∉ b :: rest' := (List.nodup_cons.mp hnd).1
    have hamem : a ∈ a :: b :: rest' := List.mem_cons_self a _
    have hbmem : b ∈ a :: b :: rest' := List.mem_cons_of_mem a (List.mem_cons_self b _)
    obtain ⟨a1, a2, a3⟩ := hmem a hamem
    obtain ⟨b1, b2, b3⟩ := hmem b hbmem
    exact ⟨fun hab => hane (hab ▸ List.mem_cons_self b rest'), a1, a2, a3, b1, b2, b3⟩
  · intro q fl0 fl' hk
    unfold kfree at hk
    split at hk
    · exact absurd hk (by simp)
    · injection hk with hk'
      rw [← hk']
      rfl

/-- C9 witness: scenario E1 on the synthetic region
`[0x80020000, 0x80022000)`. -/
theorem C9_kalloc_lifo_witness :
    kinit 0x80020000 0x80022000 = some [0x80021000, 0x80020000]
    ∧ ((∀ x ∈ [0x80021000, 0x80020000], x % PGSIZE = 0 ∧ 0x80020000 ≤ x ∧ x < 0x80022000)
      ∧ ([0x80021000, 0x80020000] : List Nat).Nodup
      ∧ (∀ a rest b rest', kalloc [0x80021000, 0x80020000] = (some a, rest) →
          kalloc rest = (some b, rest') →
          a ≠ b ∧ a % PGSIZE = 0 ∧ 0x80020000 ≤ a ∧ a < 0x80022000
          ∧ b % PGSIZE = 0 ∧ 0x80020000 ≤ b ∧ b < 0x80022000)
      ∧ kalloc ([] : List Nat) = (none, [])
      ∧ (∀ q fl0 fl', kfree 0x80020000 0x80022000 q fl0 = some fl' →
          kalloc fl' = (some q, fl0))) :=
  ⟨by decide, C9_kalloc_lifo 0x80020000 0x80022000 _ (by decide)⟩

/-- C4 counterexample: a LOAD segment whose flags are exactly the R bit
(+4) is mapped by `flags2perm` to a permission word that does not contain
`PTE_R` (indeed to 0), so flag bit 4 does not yield read permission. -/
theorem C4_flags2perm_counterexample :
    flags2perm 4 &&& PTE_R = 0 ∧ flags2perm 4 = 0 ∧ PTE_R ≠ 0 := by
  decide

/-- C4 (amended): the permission bits passed to `uvmalloc` are derived
from the segment flags by +1=X and +2=W only; the R flag (+4) is ignored
and `flags2perm` never produces `PTE_R`. -/
theorem C4_flags2perm_amended :
    ∀ flags : Nat,
      flags2perm flags =
        (if flags &&& 0x1 ≠ 0 then PTE_X else 0) ||| (if flags &&& 0x2 ≠ 0 then PTE_W else 0)
      ∧ flags2perm flags &&& PTE_R = 0 := by
  intro flags
  constructor
  · simp only [flags2perm]
    split_ifs <;> decide
  · simp only [flags2perm]
    split_ifs <;> decide

/-- C5: `begin_op` blocks exactly while the log is committing or while
admitting one more operation could overflow the log; when neither
condition holds it increments `outstanding` by one and returns with all
other log state unchanged. -/
theorem C5_begin_op_admission :
    ∀ lg : LogSt,
      (begin_op_iter lg = BeginOp.sleepOn lg ↔
        (lg.committing = true ∨ LOGSIZE < lg.lh.length + (lg.outstanding + 1) * MAXOPBLOCKS))
      ∧ (lg.committing = false →
          lg.lh.length + (lg.outstanding + 1) * MAXOPBLOCKS ≤ LOGSIZE →
          begin_op_iter lg = BeginOp.done { lg with outstanding := lg.outstanding + 1 })
      ∧ (∀ env fuel t, lg.committing = false →
          lg.lh.length + (lg.outstanding + 1) * MAXOPBLOCKS ≤ LOGSIZE →
          begin_op env (fuel + 1) t lg = some { lg with outstanding := lg.outstanding + 1 }) := by
  intro lg
  refine ⟨?_, ?_, ?_⟩
  · unfold begin_op_iter
    split_ifs with h1 h2
    · simp [h1]
    · simp [h2]
    · constructor
      · intro h; cases h
      · intro h
        rcases h with h | h
        · exact absurd h h1
        · omega
  · intro hc hn
    unfold begin_op_iter
    split_ifs with h1 h2
    · rw [hc] at h1; cases h1
    · omega
    · rfl
  · intro env fuel t hc hn
    unfold begin_op
    have : begin_op_iter lg = BeginOp.done { lg with outstanding := lg.outstanding + 1 } := by
      unfold begin_op_iter
      split_ifs with h1 h2
      · rw [hc] at h1; cases h1
      · omega
      · rfl
    rw [this]

/-- C5 witness: an idle log admits an operation immediately. -/
theorem C5_begin_op_admission_witness :
    lgC5.committing = false
    ∧ lgC5.lh.length + (lgC5.outstanding + 1) * MAXOPBLOCKS ≤ LOGSIZE
    ∧ begin_op_iter lgC5 = BeginOp.done { lgC5 with outstanding := lgC5.outstanding + 1 } :=
  ⟨by decide, by decide, (C5_begin_op_admission lgC5).2.1 (by decide) (by decide)⟩

/-- C6: log absorption.  Inside an open transaction with room in the log,
a `log_write` of a block already in `block[0..n)` changes nothing; a
`log_write` of a new block appends it once and increments `n` by one; two
`log_write`s of the same fresh block therefore grow `n` by exactly one
and leave that blockno in `block[]` exactly once. -/
theorem C6_log_absorption :
    ∀ (lg : LogSt) (bno : Nat),
      1 ≤ lg.outstanding → lg.lh.length < LOGSIZE → lg.lh.length < lg.size - 1 →
      (bno ∈ lg.lh → log_write lg bno = some lg)
      ∧ (bno ∉ lg.lh →
          log_write lg bno =
            some { lg with lh := lg.lh ++ [bno], pinned := lg.pinned ++ [bno] })
      ∧ (bno ∉ lg.lh → lg.lh.length + 1 < LOGSIZE → lg.lh.length + 1 < lg.size - 1 →
          ∃ lg', log_write lg bno = some lg' ∧ log_write lg' bno = some lg'
            ∧ lg'.lh.length = lg.lh.length + 1 ∧ lg'.lh.count bno = 1) := by
  intro lg bno hout hsz1 hsz2
  have hguard : ¬(lg.lh.length ≥ LOGSIZE ∨ lg.lh.length ≥ lg.size - 1) := by omega
  have hout' : ¬lg.outstanding < 1 := by omega
  refine ⟨?_, ?_, ?_⟩
  · intro hin
    unfold log_write
    rw [if_neg hguard, if_neg hout', if_pos hin]
  · intro hnin
    unfold log_write
    rw [if_neg hguard, if_neg hout', if_neg hnin]
  · intro hnin h1 h2
    refine ⟨{ lg with lh := lg.lh ++ [bno], pinned := lg.pinned ++ [bno] }, ?_, ?_, ?_, ?_⟩
    · unfold log_write
      rw [if_neg hguard, if_neg hout', if_neg hnin]
    · unfold log_write
      have hguard' : ¬((lg.lh ++ [bno]).length ≥ LOGSIZE ∨ (lg.lh ++ [bno]).length ≥ lg.size - 1) := by
        simp only [List.length_append, List.length_singleton]
        omega
      have hin' : bno ∈ lg.lh ++ [bno] := List.mem_append_right _ (List.mem_singleton_self bno)
      rw [if_neg hguard', if_neg hout', if_pos hin']
    · simp
    · simp only [List.count_append]
      rw [List.count_eq_zero.mpr hnin]
      simp

/-- C6 witness: scenario E4, two `log_write`s of block 42 in one op. -/
theorem C6_log_absorption_witness :
    1 ≤ lgC6.outstanding ∧ lgC6.lh.length < LOGSIZE ∧ lgC6.lh.length < lgC6.size - 1
    ∧ (42 ∉ lgC6.lh ∧ lgC6.lh.length + 1 < LOGSIZE ∧ lgC6.lh.length + 1 < lgC6.size - 1)
    ∧ ∃ lg', log_write lgC6 42 = some lg' ∧ log_write lg' 42 = some lg'
        ∧ lg'.lh.length = lgC6.lh.length + 1 ∧ lg'.lh.count 42 = 1 :=
  ⟨by decide, by decide, by decide, ⟨by decide, by decide, by decide⟩,
    (C6_log_absorption lgC6 42 (by decide) (by decide) (by decide)).2.2
      (by decide) (by decide) (by decide)⟩

/-- C10: `releasesleep` never verifies that the caller holds the lock —
it unconditionally clears `locked` and `pid` and issues the wakeup, so a
release by a non-holder succeeds silently; by contrast, spinlock
`release`, `bwrite`, and `brelse` panic when the caller is not the
holder. -/
theorem C10_releasesleep_unchecked :
    (∀ lk : SleepLk, releasesleep lk = ({ locked := false, pid := 0 }, true))
    ∧ (∀ lk pid, holdingsleep lk pid = false → brelseGuard lk pid = none)
    ∧ (∀ lk pid, holdingsleep lk pid = false → bwriteGuard lk pid = none)
    ∧ (∀ m l, holding m l = false → release m l = none) := by
  refine ⟨fun _ => rfl, ?_, ?_, ?_⟩
  · intro lk pid h
    unfold brelseGuard
    rw [h]
    rfl
  · intro lk pid h
    unfold bwriteGuard
    rw [h]
    rfl
  · intro m l h
    unfold release
    rw [h]
    rfl

/-- A completed `pop_off` re-establishes the noff/interrupt invariant:
interrupts stay off unless the nesting count reached zero. -/
theorem pop_off_noffInv : ∀ m m' : Mach, pop_off m = some m' → NoffInv m' := by
  intro m m' h
  unfold pop_off at h
  split_ifs at h with h1 h2
  injection h with h'
  subst h'
  intro hpos
  simp only [gt_iff_lt] at hpos
  have hne : ¬(m.cpu.noff - 1 = 0) := by omega
  simp [hne]

/-- C8: `noff > 0` implies interrupts are disabled: the property holds
after every `push_off`, `pop_off`, `acquire`, and `release`, and in
scenario E2 (`acquire A; acquire B; release B` leaves interrupts
disabled; the final `release A` re-enables them). -/
theorem C8_noff_interrupts :
    (∀ m : Mach, NoffInv (push_off m))
    ∧ (∀ m m' : Mach, pop_off m = some m' → NoffInv m')
    ∧ (∀ (m m' : Mach) (l : Nat), acquire m l = some m' → NoffInv m')
    ∧ (∀ (m m' : Mach) (l : Nat), release m l = some m' → NoffInv m')
    ∧ runC8a.map Mach.intr = some false
    ∧ runC8b.map Mach.intr = some true := by
  refine ⟨?_, pop_off_noffInv, ?_, ?_, rfl, rfl⟩
  · intro m _
    rfl
  · intro m m' l h
    simp only [acquire] at h
    split at h
    · exact absurd h (by simp)
    · split at h
      all_goals first
        | (injection h with h'
           subst h'
           intro _
           rfl)
        | exact absurd h (by simp)
  · intro m m' l h
    unfold release at h
    split_ifs at h
    exact pop_off_noffInv _ _ h

/-- C8 witness: the invariant parts applied to the E2 machines. -/
theorem C8_noff_interrupts_witness :
    pop_off { cpu := { noff := 1, intena := false }, intr := false,
              locks := fun _ => LockOwner.free }
      = some { cpu := { noff := 0, intena := false }, intr := false,
               locks := fun _ => LockOwner.free }
    ∧ NoffInv { cpu := { noff := 0, intena := false }, intr := false,
                locks := fun _ => LockOwner.free }
    ∧ acquire machE2 0
        = some { cpu := { noff := 1, intena := true }, intr := false,
                 locks := fun x => if x = 0 then LockOwner.me else machE2.locks x }
    ∧ NoffInv { cpu := { noff := 1, intena := true }, intr := false,
                locks := fun x => if x = 0 then LockOwner.me else machE2.locks x } :=
  ⟨rfl,
   C8_noff_interrupts.2.1
     { cpu := { noff := 1, intena := false }, intr := false, locks := fun _ => LockOwner.free }
     { cpu := { noff := 0, intena := false }, intr := false, locks := fun _ => LockOwner.free }
     rfl,
   rfl,
   C8_noff_interrupts.2.2.1 machE2
     { cpu := { noff := 1, intena := true }, intr := false,
       locks := fun x => if x = 0 then LockOwner.me else machE2.locks x }
     0 rfl⟩

/-- `bgetRecycle` fails exactly when every buffer is in use. -/
theorem bgetRecycle_eq_none_iff (dev bno : Nat) :
    ∀ l : List Buf, bgetRecycle dev bno l = none ↔ ∀ b ∈ l, b.refcnt ≠ 0 := by
  intro l
  induction l with
  | nil => simp [bgetRecycle]
  | cons b rest ih =>
    rw [bgetRecycle]
    cases hr : bgetRecycle dev bno rest with
    | some r =>
      have hrest : ¬∀ x ∈ rest, x.refcnt ≠ 0 := by
        intro hall
        rw [ih.mpr hall] at hr
        cases hr
      simp only [List.mem_cons]
      constructor
      · intro h
        cases h
      · intro h
        exact absurd (fun x hx => h x (Or.inr hx)) hrest
    | none =>
      have hrest := ih.mp hr
      by_cases hb : b.refcnt = 0
      · simp only [hb, if_pos rfl]
        constructor
        · intro h
          cases h
        · intro h
          exact absurd hb (h b (List.mem_cons_self b rest))
      · simp only [if_neg hb, List.mem_cons]
        constructor
        · intro _ x hx
          rcases hx with rfl | hx
          · exact hb
          · exact hrest x hx
        · intro _
          trivial

/-- A successful `bgetRecycle` repurposes, in place, the buffer nearest
the LRU end (the largest index) whose `refcnt` is zero. -/
theorem bgetRecycle_spec (dev bno : Nat) :
    ∀ (l : List Buf) (i : Nat) (c' : List Buf),
      bgetRecycle dev bno l = some (i, c') →
      ∃ b, l.get? i = some b ∧ b.refcnt = 0
        ∧ c' = l.set i { valid := false, dev := dev, blockno := bno, refcnt := 1 }
        ∧ ∀ j bj, i < j → l.get? j = some bj → bj.refcnt ≠ 0 := by
  intro l
  induction l with
  | nil =>
    intro i c' h
    cases h
  | cons b rest ih =>
    intro i c' h
    rw [bgetRecycle] at h
    cases hr : bgetRecycle dev bno rest with
    | some r =>
      obtain ⟨i0, rest'⟩ := r
      rw [hr] at h
      injection h with h'
      injection h' with h1 h2
      subst h1
      subst h2
      obtain ⟨b0, hget, hcnt, hset, hrest⟩ := ih i0 rest' hr
      refine ⟨b0, ?_, hcnt, ?_, ?_⟩
      · simpa using hget
      · rw [hset]
        rfl
      · intro j bj hj hget'
        cases j with
        | zero => omega
        | succ jj =>
          simp only [List.get?_cons_succ] at hget'
          exact hrest jj bj (by omega) hget'
    | none =>
      rw [hr] at h
      by_cases hb : b.refcnt = 0
      · rw [if_pos hb] at h
        injection h with h'
        injection h' with h1 h2
        subst h1
        subst h2
        refine ⟨b, rfl, hb, rfl, ?_⟩
        intro j bj hj hget'
        cases j with
        | zero => omega
        | succ jj =>
          simp only [List.get?_cons_succ] at hget'
          exact (bgetRecycle_eq_none_iff dev bno rest).mp hr bj (List.get?_mem hget')
      · rw [if_neg hb] at h
        simp at h

/-- The identity scan of `bget` misses exactly when no buffer carries the
requested identity. -/
theorem bgetCached_eq_none (dev bno : Nat) :
    ∀ l : List Buf, (∀ b ∈ l, ¬(b.dev = dev ∧ b.blockno = bno)) →
      bgetCached dev bno l = none := by
  intro l
  induction l with
  | nil => intro _; rfl
  | cons b rest ih =>
    intro h
    rw [bgetCached]
    rw [if_neg (h b (List.mem_cons_self b rest))]
    rw [ih fun x hx => h x (List.mem_cons_of_mem b hx)]

/-- C7: when `bget` finds no cached buffer with the requested identity it
repurposes the buffer nearest the LRU end whose `refcnt` is zero (the
first reclaimable buffer of the backward scan, all buffers behind it
being in use); if no buffer has `refcnt = 0` the call is fatal; and in
scenario E3 with `NBUF = 3`, reading blocks 10, 11, 12 (each released)
and then block 13 evicts block 10, keeping 11 and 12. -/
theorem C7_bget_lru :
    (∀ dev bno (cache : List Buf) i c',
       bgetRecycle dev bno cache = some (i, c') →
       ∃ b, cache.get? i = some b ∧ b.refcnt = 0
         ∧ c' = cache.set i { valid := false, dev := dev, blockno := bno, refcnt := 1 }
         ∧ ∀ j bj, i < j → cache.get? j = some bj → bj.refcnt ≠ 0)
    ∧ (∀ dev bno (cache : List Buf), (∀ b ∈ cache, ¬(b.dev = dev ∧ b.blockno = bno)) →
         bget dev bno cache = bgetRecycle dev bno cache)
    ∧ (∀ dev bno (cache : List Buf), (∀ b ∈ cache, ¬(b.dev = dev ∧ b.blockno = bno)) →
         (∀ b ∈ cache, b.refcnt ≠ 0) → bget dev bno cache = none)
    ∧ runC7 = some
        [{ valid := true, dev := 1, blockno := 12, refcnt := 0 },
         { valid := true, dev := 1, blockno := 11, refcnt := 0 },
         { valid := true, dev := 1, blockno := 13, refcnt := 1 }] := by
  refine ⟨fun dev bno cache => bgetRecycle_spec dev bno cache, ?_, ?_, by decide⟩
  · intro dev bno cache h
    unfold bget
    rw [bgetCached_eq_none dev bno cache h]
  · intro dev bno cache h hall
    unfold bget
    rw [bgetCached_eq_none dev bno cache h]
    exact (bgetRecycle_eq_none_iff dev bno cache).mpr hall

/-- C7 witness: the recycle scan on the E3 cache state just before the
fourth `bread` picks the buffer holding block 10 (the LRU position). -/
theorem C7_bget_lru_witness :
    bgetRecycle 1 13
        [{ valid := true, dev := 1, blockno := 12, refcnt := 0 },
         { valid := true, dev := 1, blockno := 11, refcnt := 0 },
         { valid := true, dev := 1, blockno := 10, refcnt := 0 }]
      = some (2,
        [{ valid := true, dev := 1, blockno := 12, refcnt := 0 },
         { valid := true, dev := 1, blockno := 11, refcnt := 0 },
         { valid := false, dev := 1, blockno := 13, refcnt := 1 }])
    ∧ ∃ b, ([{ valid := true, dev := 1, blockno := 12, refcnt := 0 },
             { valid := true, dev := 1, blockno := 11, refcnt := 0 },
             { valid := true, dev := 1, blockno := 10, refcnt := 0 }] : List Buf).get? 2 = some b
        ∧ b.refcnt = 0
        ∧ [{ valid := true, dev := 1, blockno := 12, refcnt := 0 },
           { valid := true, dev := 1, blockno := 11, refcnt := 0 },
           { valid := false, dev := 1, blockno := 13, refcnt := 1 }]
          = ([{ valid := true, dev := 1, blockno := 12, refcnt := 0 },
              { valid := true, dev := 1, blockno := 11, refcnt := 0 },
              { valid := true, dev := 1, blockno := 10, refcnt := 0 }] : List Buf).set 2
              { valid := false, dev := 1, blockno := 13, refcnt := 1 }
        ∧ ∀ j bj, 2 < j →
            ([{ valid := true, dev := 1, blockno := 12, refcnt := 0 },
              { valid := true, dev := 1, blockno := 11, refcnt := 0 },
              { valid := true, dev := 1, blockno := 10, refcnt := 0 }] : List Buf).get? j = some bj →
            bj.refcnt ≠ 0 :=
  ⟨by decide, C7_bget_lru.1 1 13 _ 2 _ (by decide)⟩

/-- C2 counterexample: a `pipewrite` of 2 bytes whose caller is killed
after the first byte has been copied into the ring stops because of the
kill having transferred 1 byte, yet returns −1, not 1 — so a pipe
operation stopped by kill does not return the bytes transferred so far
when some were transferred. -/
theorem C2_pipe_return_counterexample :
    runC2 = some (-1, 1) ∧ (1 : Nat) ≠ 0 ∧ (-1 : Int) ≠ 1 := by
  refine ⟨by decide, by decide, by decide⟩

/-- C2 (amended): a `pipewrite` that stops because the read end is closed
or the caller is killed returns −1 regardless of the bytes already
transferred (which stay in the ring); `piperead` checks the killed flag
only while waiting for data, so a `piperead` that returns −1 transferred
no bytes, and any other return value equals the bytes it transferred. -/
theorem C2_pipe_return_amended :
    (∀ (env : WriterEnv) (fuel t i n : Nat) (pi : Pipe), i < n →
       (pi.readopen = false ∨ env.killed t = true) →
       pipewriteLoop env (fuel + 1) t i n pi = some (-1, i, pi))
    ∧ (∀ (env : ReaderEnv) (fuel n : Nat) (pi : Pipe) (r : Int) (d : Nat) (pi' : Pipe),
        piperead env fuel n pi = some (r, d, pi') →
        (r = -1 → d = 0) ∧ (r ≠ -1 → r = (d : Int))) := by
  constructor
  · intro env fuel t i n pi hi hstop
    rw [pipewriteLoop]
    rw [if_pos hi, if_pos hstop]
  · intro env fuel n pi r d pi' h
    unfold piperead at h
    cases hw : pipereadWait env fuel 0 pi with
    | none =>
      rw [hw] at h
      cases h
    | some w =>
      obtain ⟨killed, pi0⟩ := w
      rw [hw] at h
      cases killed with
      | true =>
        injection h with h'
        injection h' with h1 h2
        injection h2 with h3 h4
        subst h1
        subst h3
        exact ⟨fun _ => rfl, fun hne => absurd rfl hne⟩
      | false =>
        simp only at h
        injection h with h'
        injection h' with h1 h2
        injection h2 with h3 h4
        subst h1
        subst h3
        constructor
        · intro hcast
          exact absurd hcast (by omega)
        · intro _
          rfl

/-- C2 witness for the amended claim: a write into a closed-reader pipe
with 1 byte already transferred returns −1, and a read from an empty pipe
whose writer has gone returns 0 bytes having transferred 0. -/
theorem C2_pipe_return_amended_witness :
    (1 < 2 ∧ (false = false ∨ envC2.killed 0 = true) ∨ True)
    ∧ pipewriteLoop envC2 3 0 1 2
        { data := fun _ => 0, nread := 0, nwrite := 1, readopen := false, writeopen := true }
      = some (-1, 1,
        { data := fun _ => 0, nread := 0, nwrite := 1, readopen := false, writeopen := true })
    ∧ piperead { killed := fun _ => false, copyoutOk := fun _ => true, onSleep := fun _ pi => pi }
        4 8 { data := fun _ => 0, nread := 0, nwrite := 0, readopen := true, writeopen := false }
      = some (0, 0,
        { data := fun _ => 0, nread := 0, nwrite := 0, readopen := true, writeopen := false })
    ∧ ((0 : Int) = -1 → (0 : Nat) = 0) ∧ ((0 : Int) ≠ -1 → (0 : Int) = ((0 : Nat) : Int)) :=
  ⟨Or.inr trivial,
   C2_pipe_return_amended.1 envC2 2 0 1 2
     { data := fun _ => 0, nread := 0, nwrite := 1, readopen := false, writeopen := true }
     (by decide) (Or.inl rfl),
   rfl,
   C2_pipe_return_amended.2
     { killed := fun _ => false, copyoutOk := fun _ => true, onSleep := fun _ pi => pi }
     4 8 { data := fun _ => 0, nread := 0, nwrite := 0, readopen := true, writeopen := false }
     0 0 { data := fun _ => 0, nread := 0, nwrite := 0, readopen := true, writeopen := false }
     rfl⟩

/-- `specBodyWrites` depends on the cache view only at the logged
blocks. -/
theorem specBodyWrites_congr (start : Nat) (m1 m2 : Nat → Blk) :
    ∀ (bs : List Nat) (tail : Nat), (∀ b ∈ bs, m1 b = m2 b) →
      specBodyWrites start m1 bs tail = specBodyWrites start m2 bs tail := by
  intro bs
  induction bs with
  | nil => intro tail _; rfl
  | cons b bs ih =>
    intro tail h
    rw [specBodyWrites, specBodyWrites, h b (List.mem_cons_self b bs),
      ih (tail + 1) fun x hx => h x (List.mem_cons_of_mem b hx)]

/-- Effect of the `write_log` loop from iteration `tail`: it emits the
claimed body-write trace, copies each logged block's in-cache body into
its log slot, and touches nothing outside the slots. -/
theorem write_log_go_spec (start : Nat) :
    ∀ (bs : List Nat) (tail : Nat) (st : Storage),
      (∀ b ∈ bs, b < start + 1 ∨ start + tail + bs.length < b) →
      (write_log_go start bs tail st).2 = specBodyWrites start st.mem bs tail
      ∧ (∀ x, x < start + tail + 1 ∨ start + tail + bs.length < x →
          (write_log_go start bs tail st).1.mem x = st.mem x)
      ∧ (∀ t (ht : t < bs.length),
          (write_log_go start bs tail st).1.mem (start + tail + t + 1)
            = st.mem (bs.get ⟨t, ht⟩)) := by
  intro bs
  induction bs with
  | nil =>
    intro tail st _
    refine ⟨rfl, fun x _ => rfl, fun t ht => absurd ht (by simp)⟩
  | cons b bs ih =>
    intro tail st H
    have Hb := H b (List.mem_cons_self b bs)
    have H' : ∀ x ∈ bs, x < start + 1 ∨ start + (tail + 1) + bs.length < x := by
      intro x hx
      have := H x (List.mem_cons_of_mem b hx)
      simp only [List.length_cons] at this
      omega
    set st1 : Storage := (bwriteBlk st (start + tail + 1) (st.mem b)).1 with hst1
    have hmem1 : ∀ x, x ≠ start + tail + 1 → st1.mem x = st.mem x := by
      intro x hx
      simp only [hst1, bwriteBlk]
      rw [if_neg hx]
    have hslot1 : st1.mem (start + tail + 1) = st.mem b := by
      simp only [hst1, bwriteBlk]
      simp
    obtain ⟨ih1, ih2, ih3⟩ := ih (tail + 1) st1 H'
    refine ⟨?_, ?_, ?_⟩
    · show (start + tail + 1, st.mem b) :: (write_log_go start bs (tail + 1) st1).2 = _
      rw [specBodyWrites, ih1]
      rw [specBodyWrites_congr start st1.mem st.mem bs (tail + 1) ?_]
      intro x hx
      refine hmem1 x ?_
      have := H x (List.mem_cons_of_mem b hx)
      simp only [List.length_cons] at this
      omega
    · intro x hx
      show (write_log_go start bs (tail + 1) st1).1.mem x = st.mem x
      simp only [List.length_cons] at hx
      rw [ih2 x (by omega)]
      exact hmem1 x (by omega)
    · intro t ht
      show (write_log_go start bs (tail + 1) st1).1.mem (start + tail + t + 1) = _
      cases t with
      | zero =>
        rw [ih2 (start + tail + 0 + 1) (by omega)]
        simpa using hslot1
      | succ u =>
        have harith : start + tail + (u + 1) + 1 = start + (tail + 1) + u + 1 := by omega
        rw [harith]
        have hu : u < bs.length := by
          simp only [List.length_cons] at ht
          omega
        rw [ih3 u hu]
        refine hmem1 (bs.get ⟨u, hu⟩) ?_
        have := H (bs.get ⟨u, hu⟩) (List.mem_cons_of_mem b (bs.get_mem u hu))
        omega

/-- Effect of the `install_trans` loop from iteration `tail`: given that
log slot `tail + t` holds `m0` of the `t`-th logged block, it emits the
claimed home-install trace. -/
theorem install_trans_go_spec (start : Nat) (m0 : Nat → Blk) :
    ∀ (bs : List Nat) (tail : Nat) (st : Storage),
      (∀ b ∈ bs, b < start + 1 ∨ start + tail + bs.length < b) →
      (∀ t (ht : t < bs.length), st.mem (start + tail + t + 1) = m0 (bs.get ⟨t, ht⟩)) →
      (install_trans_go start bs tail st).2 = specHomeWrites m0 bs := by
  intro bs
  induction bs with
  | nil => intro tail st _ _; rfl
  | cons b bs ih =>
    intro tail st H Hf
    have Hb := H b (List.mem_cons_self b bs)
    have hv : st.mem (start + tail + 1) = m0 b := by
      have := Hf 0 (by simp)
      simpa using this
    set st1 : Storage := (bwriteBlk st b (st.mem (start + tail + 1))).1 with hst1
    have hmem1 : ∀ x, x ≠ b → st1.mem x = st.mem x := by
      intro x hx
      simp only [hst1, bwriteBlk]
      rw [if_neg hx]
    show (b, st.mem (start + tail + 1)) :: (install_trans_go start bs (tail + 1) st1).2 = _
    rw [specHomeWrites, hv]
    have H' : ∀ x ∈ bs, x < start + 1 ∨ start + (tail + 1) + bs.length < x := by
      intro x hx
      have := H x (List.mem_cons_of_mem b hx)
      simp only [List.length_cons] at this
      omega
    have Hf' : ∀ t (ht : t < bs.length),
        st1.mem (start + (tail + 1) + t + 1) = m0 (bs.get ⟨t, ht⟩) := by
      intro t ht
      have hne : start + (tail + 1) + t + 1 ≠ b := by
        simp only [List.length_cons] at Hb
        omega
      rw [hmem1 _ hne]
      have harith : start + (tail + 1) + t + 1 = start + tail + (t + 1) + 1 := by omega
      rw [harith]
      have := Hf (t + 1) (by simp only [List.length_cons]; omega)
      simpa using this
    rw [ih (tail + 1) st1 H' Hf']

/-- C1: for a transaction with `n > 0` logged blocks (all outside the log
region), `commit` issues its disk writes in exactly this order: the `n`
log-body blocks (each log slot receiving the in-cache body of its logged
block), then the log header naming those blocks (the commit point), then
each home block (receiving that same body), and finally the header again
with `n = 0`, which also clears the in-memory transaction. -/
theorem C1_commit_write_order :
    ∀ (lg : LogSt) (st : Storage),
      lg.lh ≠ [] →
      (∀ b ∈ lg.lh, b < lg.start + 1 ∨ lg.start + lg.lh.length < b) →
      (commit lg st).2.2 =
        specBodyWrites lg.start st.mem lg.lh 0
          ++ [(lg.start, Blk.hdr lg.lh)]
          ++ specHomeWrites st.mem lg.lh
          ++ [(lg.start, Blk.hdr [])]
      ∧ (commit lg st).2.1.lh = [] := by
  intro lg st hne H
  have hpos : lg.lh.length > 0 := List.length_pos.mpr hne
  have H0 : ∀ b ∈ lg.lh, b < lg.start + 1 ∨ lg.start + 0 + lg.lh.length < b := by
    intro b hb
    have := H b hb
    omega
  obtain ⟨wl1, wl2, wl3⟩ := write_log_go_spec lg.start lg.lh 0 st H0
  constructor
  · rw [commit, if_pos hpos]
    show (write_log lg st).2
        ++ (write_head lg (write_log lg st).1).2
        ++ (install_trans lg (write_head lg (write_log lg st).1).1).2
        ++ (write_head { lg with lh := [] }
              (install_trans lg (write_head lg (write_log lg st).1).1).1).2
      = _
    simp only [write_log, write_head, install_trans]
    rw [wl1]
    have hinst : (install_trans_go lg.start lg.lh 0
        (bwriteBlk (write_log_go lg.start lg.lh 0 st).1 lg.start (Blk.hdr lg.lh)).1).2
        = specHomeWrites st.mem lg.lh := by
      refine install_trans_go_spec lg.start st.mem lg.lh 0 _ H0 ?_
      intro t ht
      have hne : lg.start + 0 + t + 1 ≠ lg.start := by omega
      show (if lg.start + 0 + t + 1 = lg.start then Blk.hdr lg.lh
            else (write_log_go lg.start lg.lh 0 st).1.mem (lg.start + 0 + t + 1))
          = st.mem (lg.lh.get ⟨t, ht⟩)
      rw [if_neg hne]
      exact wl3 t ht
    rw [hinst]
    rfl
  · rw [commit, if_pos hpos]

/-- C10 witness: a process with pid 6 releases a sleep lock held by pid
5; `releasesleep` succeeds while the holder-checked operations panic. -/
theorem C10_releasesleep_unchecked_witness :
    holdingsleep { locked := true, pid := 5 } 6 = false
    ∧ releasesleep { locked := true, pid := 5 } = ({ locked := false, pid := 0 }, true)
    ∧ brelseGuard { locked := true, pid := 5 } 6 = none
    ∧ bwriteGuard { locked := true, pid := 5 } 6 = none
    ∧ holding machE2 0 = false
    ∧ release machE2 0 = none :=
  ⟨by decide, C10_releasesleep_unchecked.1 _,
    C10_releasesleep_unchecked.2.1 _ _ (by decide),
    C10_releasesleep_unchecked.2.2.1 _ _ (by decide),
    rfl,
    C10_releasesleep_unchecked.2.2.2 machE2 0 rfl⟩

/-- C1 witness: committing the two-block transaction of `lgC1` over the
storage `stC1`. -/
theorem C1_commit_write_order_witness :
    lgC1.lh ≠ []
    ∧ (∀ b ∈ lgC1.lh, b < lgC1.start + 1 ∨ lgC1.start + lgC1.lh.length < b)
    ∧ ((commit lgC1 stC1).2.2 =
        specBodyWrites lgC1.start stC1.mem lgC1.lh 0
          ++ [(lgC1.start, Blk.hdr lgC1.lh)]
          ++ specHomeWrites stC1.mem lgC1.lh
          ++ [(lgC1.start, Blk.hdr [])]
      ∧ (commit lgC1 stC1).2.1.lh = []) :=
  ⟨by decide, by decide, C1_commit_write_order lgC1 stC1 (by decide) (by decide)⟩

/-- A completed argv-push loop processed every argument: the final `argc`
is the count it started with plus the number of strings. -/
theorem execArgvLoop_argc (env : ExecEnv) :
    ∀ (l : List Nat) (argc sp base c argc' sp' c' : Nat),
      execArgvLoop env l argc sp base c = some (argc', sp', c') →
      argc' = argc + l.length := by
  intro l
  induction l with
  | nil =>
    intro argc sp base c argc' sp' c' h
    injection h with h'
    injection h' with h1 h2
    simp [← h1]
  | cons len rest ih =>
    intro argc sp base c argc' sp' c' h
    simp only [execArgvLoop] at h
    split_ifs at h with h1 h2 h3
    have := ih (argc + 1) _ _ _ _ _ _ h
    simp only [List.length_cons]
    omega

/-- C3: `exec` is all-or-nothing.  Every failing invocation returns -1
leaving the caller's page table, `sz`, and trap frame untouched (and never
installs a page table); every successful invocation returns `argc`,
installs the freshly built page table and the new `sz`, stamps the ELF
entry point and the final stack pointer (= the argv-array address in
`a1`) into the trap frame, and frees the old page table only after
installing the new one. -/
theorem C3_exec_all_or_nothing :
    ∀ (env : ExecEnv) (p : Proc),
      ((exec env p).1 = -1 →
        (exec env p).2.1 = p ∧ ∀ q, PtEvent.install q ∉ (exec env p).2.2)
      ∧ (0 ≤ (exec env p).1 →
          (exec env p).1 = (env.argvLen.length : Int)
          ∧ ∃ e pt szL, env.elfhdrRead = some e ∧ env.newPT = some pt
              ∧ execSegLoop env e.phnum 0 0 = some szL
              ∧ (exec env p).2.1.pagetable = pt
              ∧ (exec env p).2.1.sz
                  = uvmallocRes (PGROUNDUP szL) (PGROUNDUP szL + 2 * PGSIZE)
              ∧ (exec env p).2.1.trapframe.epc = e.entry
              ∧ (exec env p).2.1.trapframe.sp = (exec env p).2.1.trapframe.a1
              ∧ (exec env p).2.2 = [PtEvent.install pt, PtEvent.freePT p.pagetable]) := by
  intro env p
  rcases hE : exec env p with ⟨r, p', ev⟩
  rw [show (r, p', ev).1 = r from rfl]
  rw [show ((r, p', ev) : Int × Proc × List PtEvent).2.1 = p' from rfl]
  rw [show ((r, p', ev) : Int × Proc × List PtEvent).2.2 = ev from rfl]
  unfold exec at hE
  repeat' (first | split at hE | simp only [] at hE)
  all_goals
    (injection hE with h1 h2
     injection h2 with h2 h3
     subst h1
     subst h2
     subst h3)
  all_goals
    try exact ⟨fun _ => ⟨rfl, fun q => by simp⟩, fun h0 => absurd h0 (by decide)⟩
  rename_i hinode xElf e heqElf hmag xPT pt heqPT xSeg szL heqSeg hok xArg argc sp2 c heqArgv hsp hcpy
  constructor
  · intro hr
    exact absurd hr (by omega)
  · intro _
    have hargc : argc = env.argvLen.length := by
      have h0 := execArgvLoop_argc env env.argvLen 0 _ _ 0 argc sp2 c heqArgv
      omega
    refine ⟨by rw [hargc], e, pt, szL, heqElf, heqPT, heqSeg, rfl, rfl, rfl, rfl, rfl⟩

/-- C3 witness: a fully successful `exec` (two argv strings, one LOAD
segment) and a failing one (final `copyout` fails), on the same process. -/
theorem C3_exec_all_or_nothing_witness :
    (0 : Int) ≤ (exec envC3 procC3).1
    ∧ ((exec envC3 procC3).1 = (envC3.argvLen.length : Int)
      ∧ ∃ e pt szL, envC3.elfhdrRead = some e ∧ envC3.newPT = some pt
          ∧ execSegLoop envC3 e.phnum 0 0 = some szL
          ∧ (exec envC3 procC3).2.1.pagetable = pt
          ∧ (exec envC3 procC3).2.1.sz
              = uvmallocRes (PGROUNDUP szL) (PGROUNDUP szL + 2 * PGSIZE)
          ∧ (exec envC3 procC3).2.1.trapframe.epc = e.entry
          ∧ (exec envC3 procC3).2.1.trapframe.sp = (exec envC3 procC3).2.1.trapframe.a1
          ∧ (exec envC3 procC3).2.2
              = [PtEvent.install pt, PtEvent.freePT procC3.pagetable])
    ∧ (exec envC3bad procC3).1 = -1
    ∧ ((exec envC3bad procC3).2.1 = procC3
      ∧ ∀ q, PtEvent.install q ∉ (exec envC3bad procC3).2.2) :=
  ⟨by decide,
   (C3_exec_all_or_nothing envC3 procC3).2 (by decide),
   by decide,
   (C3_exec_all_or_nothing envC3bad procC3).1 (by decide)⟩

end XV6
